import Mathlib

/-!
# Toleration-injection admission webhook: the decision core

A shallow embedding of `mutating-webhook/main.go` and the properties of its
admission decision pipeline.

Conventions of the embedding
* A Go `string` is a Lean `String` (well-formed Unicode text), a Go `[]byte`
  is a `List UInt8`, a Go `error` is the text returned by its `Error()` method.
* A Go pointer that may be `nil` is an `Option`; dereferencing `nil` is the
  fault `Panic.nilPointerDereference`, so a function that can fault returns
  `Except Panic _`.
* A Go `map[string]string` is the list of its entries in the order in which a
  `range` loop visits them; the keys of a map are pairwise distinct, which is
  the hypothesis `(labels.map Prod.fst).Nodup` wherever it matters.
* The package-level variables read from the environment at start-up are the
  fields of `Config`; the two decoders of the Kubernetes and Go libraries
  (`deserializer.Decode`, `json.Unmarshal` into a `corev1.Pod`) are the fields
  of `Codec`.
* Calls to `log` have no effect on the decision and are left out.
-/

namespace TolerationWebhook

/-! ## Data model -/

/-- A Go byte slice. -/
abbrev Bytes := List UInt8

/-- The fault raised by the Go runtime when a nil pointer is dereferenced. -/
inductive Panic where
  | nilPointerDereference
  deriving DecidableEq, Repr

/-- The type `corev1.Toleration`; `none` is the nil `*int64`. -/
structure Toleration where
  Key : String := ""
  Operator : String := ""
  Value : String := ""
  Effect : String := ""
  TolerationSeconds : Option Int := none
  deriving DecidableEq, Repr

/-- The part of `metav1.ObjectMeta` the program reads. -/
structure ObjectMeta where
  Name : String := ""
  Namespace : String := ""
  Labels : List (String × String) := []
  deriving DecidableEq, Repr

/-- The part of `corev1.PodSpec` the program reads. -/
structure PodSpec where
  Tolerations : List Toleration := []
  deriving DecidableEq, Repr

/-- The type `corev1.Pod`, with the embedded `ObjectMeta` and the `Spec`. -/
structure Pod where
  ObjectMeta : ObjectMeta := {}
  Spec : PodSpec := {}
  deriving DecidableEq, Repr

/-- The type `runtime.RawExtension`: the serialized resource. -/
structure RawExtension where
  Raw : Bytes := []
  deriving DecidableEq, Repr

/-- The part of `v1beta1.AdmissionRequest` the program reads. -/
structure AdmissionRequest where
  UID : String := ""
  Kind : String := ""
  Name : String := ""
  Namespace : String := ""
  Operation : String := ""
  UserInfo : String := ""
  Object : RawExtension := {}
  deriving DecidableEq, Repr

/-- The type `metav1.Status`; the program assigns only `Message`. -/
structure Status where
  Message : String := ""
  deriving DecidableEq, Repr

/-- The type `v1beta1.PatchType`, a string. -/
abbrev PatchType := String

/-- The constant `v1beta1.PatchTypeJSONPatch`. -/
def PatchTypeJSONPatch : PatchType := "JSONPatch"

/-- The type `v1beta1.AdmissionResponse`. Every field defaults to the Go zero
value: `Patch = none` is the nil slice, `Result = none` and
`PatchType = none` are nil pointers. -/
structure AdmissionResponse where
  UID : String := ""
  Allowed : Bool := false
  Result : Option Status := none
  Patch : Option Bytes := none
  PatchType : Option PatchType := none
  deriving DecidableEq, Repr

/-- The type `v1beta1.AdmissionReview`: both fields are pointers. -/
structure AdmissionReview where
  Request : Option AdmissionRequest := none
  Response : Option AdmissionResponse := none
  deriving DecidableEq, Repr

/-- The type `jsonpatch.JsonPatchOperation`. `Value` is an `interface{}` in
Go; the program only ever stores a `[]corev1.Toleration` in it. -/
structure JsonPatchOperation where
  Operation : String
  Path : String
  Value : List Toleration
  deriving DecidableEq, Repr

/-- The package-level variables initialised from the environment
(`MATCH_LABEL_KEY`, `MATCH_LABEL_VALUE`, `TOLERATION_KEY`, `TOLERATION_VALUE`,
`TOLERATION_EFFECT`); an unset variable is the empty string. -/
structure Config where
  match_label_key : String := ""
  match_label_value : String := ""
  toleration_key : String := ""
  toleration_value : String := ""
  toleration_effect : String := ""
  deriving DecidableEq, Repr

/-- The two library decoders the program calls. `decodeReview body` is
`deserializer.Decode(body, nil, &admReq)` and `unmarshalPod raw` is
`json.Unmarshal(raw, &pod)`; each returns the decoded value or the text of
the error. -/
structure Codec where
  decodeReview : Bytes → Except String AdmissionReview
  unmarshalPod : Bytes → Except String Pod

/-- The package-level `elasticToleration`: the one toleration to inject. -/
def elasticToleration (cfg : Config) : List Toleration :=
  [{ Key := cfg.toleration_key, Value := cfg.toleration_value,
     Effect := cfg.toleration_effect }]

/-! ## `encoding/json` on the patch document

`json.Marshal` applied to a `[]jsonpatch.JsonPatchOperation` whose values are
`[]corev1.Toleration`. Strings are quoted with the escapes of
`encoding/json` (HTML-safe mode, the default of `json.Marshal`), struct fields
are written in declaration order, and the `omitempty` fields of a toleration
are dropped when they hold the zero value. -/

/-- The UTF-8 bytes of a string: the conversion `[]byte(s)`. -/
def utf8 (s : String) : Bytes := s.data.flatMap String.utf8EncodeChar

/-- One hexadecimal digit, lower case. -/
def hexDigit (n : Nat) : Char :=
  if n < 10 then Char.ofNat (48 + n) else Char.ofNat (87 + n)

/-- The encoding of one character inside a JSON string. A control character
other than the line feed, the carriage return and the tab is written
`\u00XX`, the spelling of `encoding/json` before Go 1.22 (later releases
write `\b` and `\f` for U+0008 and U+000C); every other character is written
the same way by every release. -/
def jsonEscapeChar (c : Char) : List Char :=
  let n := c.toNat
  if n = 34 then [Char.ofNat 92, Char.ofNat 34]
  else if n = 92 then [Char.ofNat 92, Char.ofNat 92]
  else if n = 10 then [Char.ofNat 92, Char.ofNat 110]
  else if n = 13 then [Char.ofNat 92, Char.ofNat 114]
  else if n = 9 then [Char.ofNat 92, Char.ofNat 116]
  else if n < 32 ∨ n = 60 ∨ n = 62 ∨ n = 38 then
    [Char.ofNat 92, Char.ofNat 117, Char.ofNat 48, Char.ofNat 48,
      hexDigit (n / 16), hexDigit (n % 16)]
  else if n = 8232 ∨ n = 8233 then
    [Char.ofNat 92, Char.ofNat 117, Char.ofNat 50, Char.ofNat 48,
      Char.ofNat 50, hexDigit (n % 16)]
  else [c]

/-- A JSON string literal. -/
def jsonString (s : String) : String :=
  "\"" ++ String.mk (s.data.flatMap jsonEscapeChar) ++ "\""

/-- The strings that `encoding/json` writes between the quotes unchanged: no
control character, none of `"`, `\`, `<`, `>`, `&`, and neither U+2028 nor
U+2029. -/
def needsNoEscape (s : String) : Bool :=
  s.data.all (fun c =>
    decide (32 ≤ c.toNat ∧ c.toNat ≠ 34 ∧ c.toNat ≠ 92 ∧ c.toNat ≠ 60 ∧ c.toNat ≠ 62 ∧
      c.toNat ≠ 38 ∧ c.toNat ≠ 8232 ∧ c.toNat ≠ 8233))

/-- The members of a toleration that are not dropped by `omitempty`. -/
def jsonTolerationMembers (t : Toleration) : List String :=
  (if t.Key = "" then [] else ["\"key\":" ++ jsonString t.Key]) ++
  (if t.Operator = "" then [] else ["\"operator\":" ++ jsonString t.Operator]) ++
  (if t.Value = "" then [] else ["\"value\":" ++ jsonString t.Value]) ++
  (if t.Effect = "" then [] else ["\"effect\":" ++ jsonString t.Effect]) ++
  (match t.TolerationSeconds with
   | none => []
   | some n => ["\"tolerationSeconds\":" ++ toString n])

/-- A toleration as a JSON object. -/
def jsonToleration (t : Toleration) : String :=
  "\x7b" ++ ",".intercalate (jsonTolerationMembers t) ++ "\x7d"

/-- A patch operation as a JSON object. -/
def jsonOperation (op : JsonPatchOperation) : String :=
  "\x7b\"op\":" ++ jsonString op.Operation ++ ",\"path\":" ++ jsonString op.Path ++
    ",\"value\":[" ++ ",".intercalate (op.Value.map jsonToleration) ++ "]\x7d"

/-- The call `json.Marshal(patch)` of `patchConfig`. A slice that was never
appended to is nil and is written `null`. -/
def jsonMarshal (patch : List JsonPatchOperation) : Except String Bytes :=
  match patch with
  | [] => .ok (utf8 "null")
  | _ => .ok (utf8 ("[" ++ ",".intercalate (patch.map jsonOperation) ++ "]"))

/-! ## The program -/

/-- The function `admissionError`: a response that carries only the message
of the error. -/
def admissionError (err : String) : AdmissionResponse :=
  { Result := some { Message := err } }

/-- The function `shouldInject`: the loop over the labels, started at `false`,
sets the flag at every entry whose key and value are the configured ones. -/
def shouldInject (cfg : Config) (metadata : ObjectMeta) : Bool :=
  metadata.Labels.foldl
    (fun shouldInject kv =>
      if kv.1 = cfg.match_label_key then
        if kv.2 = cfg.match_label_value then true else shouldInject
      else shouldInject)
    false

/-- The function `addTolerations`: the loop over `toAdd` appends one operation
per toleration to the patch, which starts nil; `current` is not read. -/
def addTolerations (_current : List Toleration) (toAdd : List Toleration) :
    List JsonPatchOperation :=
  toAdd.foldl
    (fun patch toleration =>
      patch ++ [{ Operation := "add", Path := "/spec/tolerations",
                  Value := [toleration] }])
    []

/-- The function `patchConfig`: the operations of `addTolerations` appended to
a nil patch, then serialized. -/
def patchConfig (pod : Pod) (tolerations : List Toleration) : Except String Bytes :=
  let patch : List JsonPatchOperation := []
  let patch := patch ++ addTolerations pod.Spec.Tolerations tolerations
  jsonMarshal patch

/-- The function `getAdmissionDecision`. `admReq.Request` is a pointer that is
dereferenced without a check, hence the fault when it is nil. -/
def getAdmissionDecision (cfg : Config) (lib : Codec) (admReq : AdmissionReview) :
    Except Panic AdmissionResponse :=
  match admReq.Request with
  | none => .error Panic.nilPointerDereference
  | some req =>
    match lib.unmarshalPod req.Object.Raw with
    | .error err => .ok (admissionError err)
    | .ok pod =>
      if !shouldInject cfg pod.ObjectMeta then
        .ok { Allowed := true, UID := req.UID }
      else
        match patchConfig pod (elasticToleration cfg) with
        | .error err => .ok (admissionError err)
        | .ok patch =>
          .ok { Allowed := true, Patch := some patch,
                PatchType := some PatchTypeJSONPatch, UID := req.UID }

/-- What `handler` does that is visible outside it, in order. -/
inductive HandlerEvent where
  /-- A call of `deserializer.Decode` on the body. -/
  | decode (body : Bytes)
  /-- The envelope handed to `json.Marshal` and written to the client. -/
  | write (admResp : AdmissionReview)
  /-- The handler ended in a fault instead of returning. -/
  | fault (p : Panic)
  deriving DecidableEq, Repr

/-- The function `handler`. `body` is the result of `ioutil.ReadAll(r.Body)`
and `contentType` the value of `r.Header.Get("Content-Type")`. -/
def handler (cfg : Config) (lib : Codec) (body : Except String Bytes)
    (contentType : String) : List HandlerEvent :=
  match body with
  | .error _ => []
  | .ok body =>
    if contentType ≠ "application/json" then []
    else
      match lib.decodeReview body with
      | .error err =>
        [HandlerEvent.decode body, HandlerEvent.write { Response := some (admissionError err) }]
      | .ok admReq =>
        match getAdmissionDecision cfg lib admReq with
        | .error p => [HandlerEvent.decode body, HandlerEvent.fault p]
        | .ok resp => [HandlerEvent.decode body, HandlerEvent.write { Response := some resp }]

/-! ## `strings.Replace` and the pointer escaper

`strings.Replace` works on the bytes of its arguments. The embedding works on
characters, which gives the same result on well-formed text whenever `old`
is itself well-formed text: an occurrence of `old` in the bytes of `s` then
starts and ends at character boundaries. -/

/-- The left-to-right scan of `strings.Replace` for a non-empty `old`: at each
position where `old` starts, `new` is written and the scan resumes after the
occurrence (`skip` counts the characters of the occurrence still to pass);
elsewhere the character is copied. -/
def replaceScan (old new : List Char) : Nat → List Char → List Char
  | _, [] => []
  | skip + 1, _ :: cs => replaceScan old new skip cs
  | 0, c :: cs =>
    if old.isPrefixOf (c :: cs) then new ++ replaceScan old new (old.length - 1) cs
    else c :: replaceScan old new 0 cs

/-- The call `strings.Replace(s, old, new, -1)`: every non-overlapping
occurrence of `old` is replaced by `new`. When `old` is empty, `new` is
inserted at the start and after every character. -/
def stringsReplace (s old new : String) : String :=
  if old = new then s
  else if old.data = [] then String.mk (new.data ++ s.data.flatMap (fun c => c :: new.data))
  else String.mk (replaceScan old.data new.data 0 s.data)

/-- The function `escapeJSONPointer`. -/
def escapeJSONPointer (s : String) : String :=
  let esc := stringsReplace s "~" "~0"
  let esc := stringsReplace esc "/" "~1"
  esc

/-! ## Reference definitions

Definitions that follow the words of the specification, to be compared with
the program. -/

/-- The RFC 6901 decoder as the specification words it: every `~1` becomes
`/`, then every `~0` becomes `~`. -/
def unescapeJSONPointer (s : String) : String :=
  stringsReplace (stringsReplace s "~1" "/") "~0" "~"

/-- The substitution of one character: `~` becomes `~0`, `/` becomes `~1`,
every other character stays. -/
def escapeChar (c : Char) : List Char :=
  if c = '~' then ['~', '0'] else if c = '/' then ['~', '1'] else [c]

/-- The escaper as one pass over the characters. -/
def escapeCharwise (s : String) : String :=
  String.mk (s.data.flatMap escapeChar)

/-- The escaper with the two replacements in the other order: `/` first, then
`~`. -/
def escapeSlashFirst (s : String) : String :=
  stringsReplace (stringsReplace s "/" "~1") "~" "~0"

/-- Modelled from the spec: the target server, which is not part of this
repository, applying a patch to the tolerations of a resource under the
reading of section 4.3 of the specification in which an `add` at the
collection path appends the operation's value to the collection. -/
def applyAppend (tolerations : List Toleration) (patch : List JsonPatchOperation) :
    List Toleration :=
  patch.foldl (fun acc op => acc ++ op.Value) tolerations

/-! ## Fixtures

Concrete inputs on which the definitions above are evaluated. `exampleCodec`
stands for the two library decoders on the handful of byte strings used
below: it accepts and rejects each of them as the libraries do, and the texts
of its errors stand for the libraries' messages. -/

/-- A configuration with every variable set. -/
def exampleConfig : Config :=
  { match_label_key := "team", match_label_value := "x",
    toleration_key := "dedicated", toleration_value := "special",
    toleration_effect := "NoSchedule" }

/-- The serialized pod `labelledPod`. -/
def labelledPodRaw : Bytes :=
  utf8 ("\x7b\"metadata\":\x7b\"labels\":\x7b\"team\":\"x\"\x7d\x7d," ++
    "\"spec\":\x7b\"tolerations\":[\x7b\"key\":\"gpu\",\"operator\":\"Exists\"\x7d]\x7d\x7d")

/-- A pod that carries the label `team: x` and one toleration already. -/
def labelledPod : Pod :=
  { ObjectMeta := { Labels := [("team", "x")] },
    Spec := { Tolerations := [{ Key := "gpu", Operator := "Exists" }] } }

/-- The serialized pod `plainPod`. -/
def plainPodRaw : Bytes :=
  utf8 "\x7b\"metadata\":\x7b\"labels\":\x7b\"app\":\"web\"\x7d\x7d\x7d"

/-- A pod without the configured label. -/
def plainPod : Pod :=
  { ObjectMeta := { Labels := [("app", "web")] } }

/-- An envelope body without a `request` member. -/
def emptyEnvelopeBody : Bytes := utf8 "\x7b\x7d"

/-- A body that is not JSON. -/
def malformedBody : Bytes := utf8 "not json"

/-- The decoders on the fixture inputs. -/
def exampleCodec : Codec where
  decodeReview body :=
    if body = emptyEnvelopeBody then .ok {}
    else .error "couldn't get version/kind; json parse error"
  unmarshalPod raw :=
    if raw = [] then .error "unexpected end of JSON input"
    else if raw = labelledPodRaw then .ok labelledPod
    else if raw = plainPodRaw then .ok plainPod
    else .error "invalid character"

/-- A review of a `DELETE`: the envelope has `"object": null`, which leaves
`Object.Raw` empty. -/
def deleteReview : AdmissionReview :=
  { Request := some { UID := "705ab4f5-6393-11e8-b7cc-42010a800002", Kind := "Pod",
                      Name := "web-0", Namespace := "default", Operation := "DELETE" } }

/-- A review of the creation of `labelledPod`. -/
def labelledReview : AdmissionReview :=
  { Request := some { UID := "1f6a3c9e-6393-11e8-b7cc-42010a800002", Kind := "Pod",
                      Name := "job-7", Namespace := "default", Operation := "CREATE",
                      Object := { Raw := labelledPodRaw } } }

/-- A review of the creation of `plainPod`. -/
def plainReview : AdmissionReview :=
  { Request := some { UID := "c2d0e7a4-6393-11e8-b7cc-42010a800002", Kind := "Pod",
                      Name := "web-1", Namespace := "default", Operation := "CREATE",
                      Object := { Raw := plainPodRaw } } }

/-- A second review of a pod with the bytes of `labelledPod`, from another
namespace. -/
def secondLabelledReview : AdmissionReview :=
  { Request := some { UID := "9b1deb4d-6393-11e8-b7cc-42010a800002", Kind := "Pod",
                      Name := "batch-3", Namespace := "jobs", Operation := "CREATE",
                      Object := { Raw := labelledPodRaw } } }

/-! ## The eligibility evaluator -/

/-- The loop of `shouldInject`, started at any value of the flag, ends with
the flag set exactly when it was set at the start or some visited entry is the
configured pair. -/
theorem shouldInject_loop (k v : String) (labels : List (String × String)) (flag : Bool) :
    labels.foldl
        (fun shouldInject kv =>
          if kv.1 = k then (if kv.2 = v then true else shouldInject) else shouldInject)
        flag
      = (flag || decide ((k, v) ∈ labels)) := by
  induction labels generalizing flag with
  | nil => simp
  | cons kv rest ih =>
    obtain ⟨a, b⟩ := kv
    rw [List.foldl_cons, ih]
    by_cases ha : a = k <;> by_cases hb : b = v
    · subst ha; subst hb; simp
    · subst ha
      have hne : ¬ v = b := fun h => hb h.symm
      simp [hb, hne]
    · have hne : ¬ k = a := fun h => ha h.symm
      simp [ha, hne]
    · have hne : ¬ k = a := fun h => ha h.symm
      simp [ha, hne]

/-- The evaluator returns true exactly when the configured pair is among the
labels. -/
theorem shouldInject_eq_true_iff (cfg : Config) (metadata : ObjectMeta) :
    shouldInject cfg metadata = true ↔
      (cfg.match_label_key, cfg.match_label_value) ∈ metadata.Labels := by
  unfold shouldInject
  rw [shouldInject_loop]
  simp

/-- In a map, a key has at most one value. -/
theorem label_value_unique (labels : List (String × String))
    (hmap : (labels.map Prod.fst).Nodup) (k v w : String)
    (hv : (k, v) ∈ labels) (hw : (k, w) ∈ labels) : v = w := by
  induction labels with
  | nil => simp at hv
  | cons kv rest ih =>
    rw [List.map_cons, List.nodup_cons] at hmap
    rcases List.mem_cons.mp hv with hv | hv <;> rcases List.mem_cons.mp hw with hw | hw
    · rw [← hv] at hw
      exact (Prod.mk.inj hw).2.symm
    · exfalso
      apply hmap.1
      rw [← hv]
      exact List.mem_map.mpr ⟨(k, w), hw, rfl⟩
    · exfalso
      apply hmap.1
      rw [← hw]
      exact List.mem_map.mpr ⟨(k, v), hv, rfl⟩
    · exact ih hmap.2 hv hw

/-- Claim C3. For a label map (pairwise distinct keys) `shouldInject` is true
if and only if the map has an entry under the configured key whose value is
the configured value; when the key is present with value `v`, the result is
true exactly when `v` is the configured value; the result is the same for
every order in which the entries are visited; and on the labels `team: x`
with key `team` the value `x` gives true and the value `y` gives false. -/
theorem shouldInject_iff_label (cfg : Config) (metadata : ObjectMeta)
    (hmap : (metadata.Labels.map Prod.fst).Nodup) :
    (shouldInject cfg metadata = true ↔
      ∃ v, (cfg.match_label_key, v) ∈ metadata.Labels ∧ v = cfg.match_label_value) ∧
    (∀ v, (cfg.match_label_key, v) ∈ metadata.Labels →
      (shouldInject cfg metadata = true ↔ v = cfg.match_label_value)) ∧
    (∀ visited : List (String × String), visited.Perm metadata.Labels →
      shouldInject cfg { metadata with Labels := visited } = shouldInject cfg metadata) ∧
    shouldInject { match_label_key := "team", match_label_value := "x" }
      { Labels := [("team", "x")] } = true ∧
    shouldInject { match_label_key := "team", match_label_value := "y" }
      { Labels := [("team", "x")] } = false := by
  refine ⟨?_, ?_, ?_, by decide, by decide⟩
  · rw [shouldInject_eq_true_iff]
    constructor
    · intro h
      exact ⟨_, h, rfl⟩
    · rintro ⟨v, hv, rfl⟩
      exact hv
  · intro v hv
    rw [shouldInject_eq_true_iff]
    constructor
    · intro h
      exact label_value_unique _ hmap _ _ _ hv h
    · rintro rfl
      exact hv
  · intro visited hperm
    have h := shouldInject_eq_true_iff cfg { metadata with Labels := visited }
    have h2 := shouldInject_eq_true_iff cfg metadata
    rw [Bool.eq_iff_iff, h, h2]
    exact hperm.mem_iff

/-- Witness of C3 on a map of two labels. -/
theorem shouldInject_iff_label_witness :
    (shouldInject exampleConfig { Labels := [("app", "web"), ("team", "x")] } = true ↔
      ∃ v, ("team", v) ∈ [("app", "web"), ("team", "x")] ∧ v = "x") :=
  (shouldInject_iff_label exampleConfig { Labels := [("app", "web"), ("team", "x")] }
    (by decide)).1

/-- Claim C4. With the match key unset (the empty string) `shouldInject` is
false on every label map without an entry under the empty key, the empty map
included, and it is true only when the map has the entry whose key is the
empty string and whose value is the match value. -/
theorem shouldInject_empty_key (cfg : Config) (metadata : ObjectMeta)
    (hkey : cfg.match_label_key = "") :
    ((∀ v, ("", v) ∉ metadata.Labels) → shouldInject cfg metadata = false) ∧
    (shouldInject cfg metadata = true ↔ ("", cfg.match_label_value) ∈ metadata.Labels) ∧
    shouldInject cfg { metadata with Labels := [] } = false := by
  have h := shouldInject_eq_true_iff cfg metadata
  rw [hkey] at h
  refine ⟨?_, h, ?_⟩
  · intro hno
    rw [← Bool.not_eq_true, h]
    exact hno _
  · rfl

/-- Witness of C4: the unset key does not match a pod labelled `team: x`. -/
theorem shouldInject_empty_key_witness :
    shouldInject { match_label_value := "x" } { Labels := [("team", "x")] } = false :=
  (shouldInject_empty_key { match_label_value := "x" } { Labels := [("team", "x")] } rfl).1
    (by intro v; simp)

/-! ## The patch builder -/

/-- The loop of `addTolerations`, started at any patch, appends to it the
operations of the tolerations to add, in order. -/
theorem addTolerations_loop (toAdd : List Toleration) (patch : List JsonPatchOperation) :
    toAdd.foldl
        (fun patch toleration =>
          patch ++ [({ Operation := "add", Path := "/spec/tolerations",
                       Value := [toleration] } : JsonPatchOperation)])
        patch
      = patch ++ toAdd.map (fun toleration =>
          ({ Operation := "add", Path := "/spec/tolerations",
             Value := [toleration] } : JsonPatchOperation)) := by
  induction toAdd generalizing patch with
  | nil => simp
  | cons t rest ih => rw [List.foldl_cons, ih]; simp

/-- The builder maps every toleration to add to its operation, in order. -/
theorem addTolerations_eq_map (current toAdd : List Toleration) :
    addTolerations current toAdd
      = toAdd.map (fun toleration =>
          ({ Operation := "add", Path := "/spec/tolerations",
             Value := [toleration] } : JsonPatchOperation)) := by
  unfold addTolerations
  rw [addTolerations_loop]
  simp

/-- Claim C10. `addTolerations current toAdd` has as many operations as
`toAdd` has tolerations, its i-th operation is the `add` at
`/spec/tolerations` of the one-element sequence holding the i-th toleration
of `toAdd`, and on no current tolerations and the single toleration
(dedicated, special, NoSchedule) it is exactly that one operation. -/
theorem addTolerations_shape (current toAdd : List Toleration) :
    (addTolerations current toAdd).length = toAdd.length ∧
    (∀ i : Nat, (addTolerations current toAdd)[i]? =
      (toAdd[i]?).map (fun toleration =>
        ({ Operation := "add", Path := "/spec/tolerations",
           Value := [toleration] } : JsonPatchOperation))) ∧
    addTolerations [] [{ Key := "dedicated", Value := "special", Effect := "NoSchedule" }] =
      [{ Operation := "add", Path := "/spec/tolerations",
         Value := [{ Key := "dedicated", Value := "special", Effect := "NoSchedule" }] }] := by
  refine ⟨?_, ?_, ?_⟩
  · rw [addTolerations_eq_map, List.length_map]
  · intro i
    rw [addTolerations_eq_map, List.getElem?_map]
  · rfl

/-! ## The decision orchestrator -/

/-- Serializing the patch never fails. -/
theorem jsonMarshal_ok (patch : List JsonPatchOperation) :
    ∃ bytes, jsonMarshal patch = .ok bytes := by
  cases patch with
  | nil => exact ⟨_, rfl⟩
  | cons op rest => exact ⟨_, rfl⟩

/-- The patch document is the serialization of the operations that add the
given tolerations; the pod is not read. -/
theorem patchConfig_eq (pod : Pod) (tolerations : List Toleration) :
    patchConfig pod tolerations
      = jsonMarshal (tolerations.map (fun toleration =>
          ({ Operation := "add", Path := "/spec/tolerations",
             Value := [toleration] } : JsonPatchOperation))) := by
  unfold patchConfig
  rw [addTolerations_eq_map]
  simp

/-- The decision on a review without a request: the dereference faults. -/
theorem getAdmissionDecision_no_request (cfg : Config) (lib : Codec)
    (admReq : AdmissionReview) (hreq : admReq.Request = none) :
    getAdmissionDecision cfg lib admReq = .error Panic.nilPointerDereference := by
  unfold getAdmissionDecision
  rw [hreq]

/-- The decision when the raw resource body does not unmarshal. -/
theorem getAdmissionDecision_unmarshal_error (cfg : Config) (lib : Codec)
    (admReq : AdmissionReview) (req : AdmissionRequest) (err : String)
    (hreq : admReq.Request = some req)
    (hpod : lib.unmarshalPod req.Object.Raw = .error err) :
    getAdmissionDecision cfg lib admReq = .ok (admissionError err) := by
  unfold getAdmissionDecision
  rw [hreq]
  simp only [hpod]

/-- The decision on a pod that is not eligible. -/
theorem getAdmissionDecision_not_eligible (cfg : Config) (lib : Codec)
    (admReq : AdmissionReview) (req : AdmissionRequest) (pod : Pod)
    (hreq : admReq.Request = some req)
    (hpod : lib.unmarshalPod req.Object.Raw = .ok pod)
    (hskip : shouldInject cfg pod.ObjectMeta = false) :
    getAdmissionDecision cfg lib admReq = .ok { Allowed := true, UID := req.UID } := by
  unfold getAdmissionDecision
  rw [hreq]
  simp only [hpod, hskip]
  rfl

/-- The decision on an eligible pod, with the outcome of the patch builder
still to be analysed. -/
theorem getAdmissionDecision_eligible (cfg : Config) (lib : Codec)
    (admReq : AdmissionReview) (req : AdmissionRequest) (pod : Pod)
    (hreq : admReq.Request = some req)
    (hpod : lib.unmarshalPod req.Object.Raw = .ok pod)
    (hinj : shouldInject cfg pod.ObjectMeta = true) :
    getAdmissionDecision cfg lib admReq =
      match patchConfig pod (elasticToleration cfg) with
      | .error err => .ok (admissionError err)
      | .ok patch =>
        .ok { Allowed := true, Patch := some patch,
              PatchType := some PatchTypeJSONPatch, UID := req.UID } := by
  unfold getAdmissionDecision
  rw [hreq]
  simp only [hpod, hinj]
  rfl

/-- The decision on an eligible pod: the patch is built and attached. -/
theorem getAdmissionDecision_patch (cfg : Config) (lib : Codec)
    (admReq : AdmissionReview) (req : AdmissionRequest) (pod : Pod)
    (hreq : admReq.Request = some req)
    (hpod : lib.unmarshalPod req.Object.Raw = .ok pod)
    (hinj : shouldInject cfg pod.ObjectMeta = true) :
    ∃ patch,
      jsonMarshal [{ Operation := "add", Path := "/spec/tolerations",
                     Value := [{ Key := cfg.toleration_key, Value := cfg.toleration_value,
                                 Effect := cfg.toleration_effect }] }] = .ok patch ∧
      getAdmissionDecision cfg lib admReq =
        .ok { Allowed := true, Patch := some patch,
              PatchType := some PatchTypeJSONPatch, UID := req.UID } := by
  obtain ⟨patch, hpatch⟩ := jsonMarshal_ok
    [{ Operation := "add", Path := "/spec/tolerations",
       Value := [{ Key := cfg.toleration_key, Value := cfg.toleration_value,
                   Effect := cfg.toleration_effect }] }]
  refine ⟨patch, hpatch, ?_⟩
  rw [getAdmissionDecision_eligible cfg lib admReq req pod hreq hpod hinj, patchConfig_eq]
  have hops : (elasticToleration cfg).map (fun toleration =>
      ({ Operation := "add", Path := "/spec/tolerations",
         Value := [toleration] } : JsonPatchOperation))
      = [{ Operation := "add", Path := "/spec/tolerations",
           Value := [{ Key := cfg.toleration_key, Value := cfg.toleration_value,
                       Effect := cfg.toleration_effect }] }] := rfl
  rw [hops, hpatch]

/-- Every review with a request gets a response, in one of three shapes. -/
theorem getAdmissionDecision_shapes (cfg : Config) (lib : Codec)
    (admReq : AdmissionReview) (req : AdmissionRequest)
    (hreq : admReq.Request = some req) :
    (∃ err, getAdmissionDecision cfg lib admReq = .ok (admissionError err)) ∨
    getAdmissionDecision cfg lib admReq = .ok { Allowed := true, UID := req.UID } ∨
    (∃ patch, getAdmissionDecision cfg lib admReq =
      .ok { Allowed := true, Patch := some patch,
            PatchType := some PatchTypeJSONPatch, UID := req.UID }) := by
  cases hpod : lib.unmarshalPod req.Object.Raw with
  | error err =>
    exact Or.inl ⟨err, getAdmissionDecision_unmarshal_error cfg lib admReq req err hreq hpod⟩
  | ok pod =>
    cases hinj : shouldInject cfg pod.ObjectMeta with
    | false =>
      exact Or.inr (Or.inl (getAdmissionDecision_not_eligible cfg lib admReq req pod hreq hpod hinj))
    | true =>
      obtain ⟨patch, _, h⟩ := getAdmissionDecision_patch cfg lib admReq req pod hreq hpod hinj
      exact Or.inr (Or.inr ⟨patch, h⟩)

/-- Claim C1, at the input where the program departs from it: on the review
of a `DELETE` (request UID `705ab4f5-...`, empty raw body) the resource body
does not unmarshal and the response is `admissionError` of that error, whose
UID is the empty string and not the UID of the request. -/
theorem getAdmissionDecision_error_drops_uid :
    getAdmissionDecision exampleConfig exampleCodec deleteReview
      = .ok (admissionError "unexpected end of JSON input") ∧
    (admissionError "unexpected end of JSON input").UID = "" ∧
    (admissionError "unexpected end of JSON input").UID
      ≠ "705ab4f5-6393-11e8-b7cc-42010a800002" := by
  refine ⟨?_, rfl, by decide⟩
  exact getAdmissionDecision_unmarshal_error _ _ _ _ _ rfl rfl

/-- Claim C2 as stated fails: on the review of a `DELETE` (empty raw body) the
decision has failed and the response has `Allowed = false`. -/
theorem getAdmissionDecision_error_not_allowed :
    getAdmissionDecision exampleConfig exampleCodec deleteReview
      = .ok (admissionError "unexpected end of JSON input") ∧
    (admissionError "unexpected end of JSON input").Allowed = false := by
  refine ⟨?_, rfl⟩
  exact getAdmissionDecision_unmarshal_error _ _ _ _ _ rfl rfl

/-- Claim C2, amended. For a decoded review that has a request: when the raw
resource body unmarshals, the response has `Allowed = true`, whether or not
the pod is eligible; when it does not unmarshal, the response is
`admissionError err`, whose `Allowed` is false. -/
theorem getAdmissionDecision_allowed (cfg : Config) (lib : Codec)
    (admReq : AdmissionReview) (req : AdmissionRequest)
    (hreq : admReq.Request = some req) :
    (∀ pod, lib.unmarshalPod req.Object.Raw = .ok pod →
      ∃ resp, getAdmissionDecision cfg lib admReq = .ok resp ∧ resp.Allowed = true) ∧
    (∀ err, lib.unmarshalPod req.Object.Raw = .error err →
      getAdmissionDecision cfg lib admReq = .ok (admissionError err) ∧
      (admissionError err).Allowed = false) := by
  constructor
  · intro pod hpod
    cases hinj : shouldInject cfg pod.ObjectMeta with
    | false =>
      exact ⟨_, getAdmissionDecision_not_eligible cfg lib admReq req pod hreq hpod hinj, rfl⟩
    | true =>
      obtain ⟨patch, _, h⟩ := getAdmissionDecision_patch cfg lib admReq req pod hreq hpod hinj
      exact ⟨_, h, rfl⟩
  · intro err hpod
    exact ⟨getAdmissionDecision_unmarshal_error cfg lib admReq req err hreq hpod, rfl⟩

/-- Witness of the amended C2 on a pod that is not eligible. -/
theorem getAdmissionDecision_allowed_witness :
    ∃ resp, getAdmissionDecision exampleConfig exampleCodec plainReview = .ok resp ∧
      resp.Allowed = true :=
  (getAdmissionDecision_allowed exampleConfig exampleCodec plainReview _ rfl).1
    plainPod (by rfl)

/-! ### The bytes of the patch -/

/-- A string that needs no escape is written between two quotes as it is. -/
theorem jsonString_plain (s : String) (h : needsNoEscape s = true) :
    jsonString s = "\"" ++ s ++ "\"" := by
  have hdata : s.data.flatMap jsonEscapeChar = s.data := by
    unfold needsNoEscape at h
    generalize s.data = l at h
    induction l with
    | nil => rfl
    | cons c cs ih =>
      rw [List.all_cons, Bool.and_eq_true, decide_eq_true_eq] at h
      rw [List.flatMap_cons, ih h.2]
      have hc : jsonEscapeChar c = [c] := by
        unfold jsonEscapeChar
        obtain ⟨h1, h2, h3, h4, h5, h6, h7, h8⟩ := h.1
        have e1 : ¬ c.toNat = 10 := by omega
        have e2 : ¬ c.toNat = 13 := by omega
        have e3 : ¬ c.toNat = 9 := by omega
        have e4 : ¬ (c.toNat < 32 ∨ c.toNat = 60 ∨ c.toNat = 62 ∨ c.toNat = 38) := by omega
        have e5 : ¬ (c.toNat = 8232 ∨ c.toNat = 8233) := by omega
        simp only [h2, h3, e1, e2, e3, e4, e5, if_false]
      rw [hc]
      rfl
  unfold jsonString
  rw [hdata]

/-- The serialization of the one operation that adds a toleration. -/
theorem jsonMarshal_add (t : Toleration) :
    jsonMarshal [{ Operation := "add", Path := "/spec/tolerations", Value := [t] }]
      = .ok (utf8 ("[\x7b\"op\":\"add\",\"path\":\"/spec/tolerations\",\"value\":[\x7b" ++
          ",".intercalate (jsonTolerationMembers t) ++ "\x7d]\x7d]")) := by
  have hop : jsonString "add" = "\"add\"" := by decide
  have hpath : jsonString "/spec/tolerations" = "\"/spec/tolerations\"" := by decide
  unfold jsonMarshal
  simp only [List.map_cons, List.map_nil]
  unfold jsonOperation
  simp only [List.map_cons, List.map_nil, hop, hpath]
  unfold jsonToleration
  congr 2
  apply String.ext
  simp only [String.intercalate, String.intercalate.go, String.data_append, List.append_assoc]
  rfl

/-- The members written for the configured toleration: the operator and the
toleration seconds are never set, and an unset string is dropped. -/
theorem jsonTolerationMembers_elastic (cfg : Config) :
    jsonTolerationMembers { Key := cfg.toleration_key, Value := cfg.toleration_value,
                            Effect := cfg.toleration_effect }
      = (if cfg.toleration_key = "" then [] else ["\"key\":" ++ jsonString cfg.toleration_key])
        ++ (if cfg.toleration_value = "" then []
            else ["\"value\":" ++ jsonString cfg.toleration_value])
        ++ (if cfg.toleration_effect = "" then []
            else ["\"effect\":" ++ jsonString cfg.toleration_effect]) := by
  unfold jsonTolerationMembers
  simp

/-- The patch document for a configured toleration whose three strings are
set and need no escape. -/
theorem jsonMarshal_elastic_plain (cfg : Config)
    (hk : cfg.toleration_key ≠ "") (hv : cfg.toleration_value ≠ "")
    (he : cfg.toleration_effect ≠ "")
    (hkp : needsNoEscape cfg.toleration_key = true)
    (hvp : needsNoEscape cfg.toleration_value = true)
    (hep : needsNoEscape cfg.toleration_effect = true) :
    jsonMarshal [{ Operation := "add", Path := "/spec/tolerations",
                   Value := [{ Key := cfg.toleration_key, Value := cfg.toleration_value,
                               Effect := cfg.toleration_effect }] }]
      = .ok (utf8 ("[\x7b\"op\":\"add\",\"path\":\"/spec/tolerations\",\"value\":[\x7b\"key\":\"" ++
          cfg.toleration_key ++ "\",\"value\":\"" ++ cfg.toleration_value ++
          "\",\"effect\":\"" ++ cfg.toleration_effect ++ "\"\x7d]\x7d]")) := by
  rw [jsonMarshal_add, jsonTolerationMembers_elastic, if_neg hk, if_neg hv, if_neg he,
    jsonString_plain _ hkp, jsonString_plain _ hvp, jsonString_plain _ hep]
  congr 2
  apply String.ext
  simp only [List.cons_append, List.nil_append, String.intercalate, String.intercalate.go,
    String.data_append, List.append_assoc]

/-- Claim C5. Inject path: when the raw resource body unmarshals to an
eligible pod, the response is exactly: allowed, the UID of the request, patch
type `JSONPatch`, no result, and as patch the JSON serialization of the single
operation `add /spec/tolerations [B]`, with `B` the configured toleration.
That serialization succeeds and is the text
`[{"op":"add","path":"/spec/tolerations","value":[{...}]}]` whose inner object
holds, in this order and separated by commas, the members `key`, `value` and
`effect` of `B` that are not the empty string; when the three strings are set
and need no escape it is
`[{"op":"add","path":"/spec/tolerations","value":[{"key":"K","value":"V","effect":"E"}]}]`.
The patch is the same whatever tolerations the pod already has. -/
theorem getAdmissionDecision_inject (cfg : Config) (lib : Codec)
    (admReq : AdmissionReview) (req : AdmissionRequest) (pod : Pod)
    (hreq : admReq.Request = some req)
    (hpod : lib.unmarshalPod req.Object.Raw = .ok pod)
    (hinj : shouldInject cfg pod.ObjectMeta = true) :
    (∃ patch,
      jsonMarshal [{ Operation := "add", Path := "/spec/tolerations",
                     Value := [{ Key := cfg.toleration_key, Value := cfg.toleration_value,
                                 Effect := cfg.toleration_effect }] }] = .ok patch ∧
      getAdmissionDecision cfg lib admReq =
        .ok { UID := req.UID, Allowed := true, Result := none, Patch := some patch,
              PatchType := some "JSONPatch" }) ∧
    getAdmissionDecision cfg lib admReq =
      .ok { UID := req.UID, Allowed := true, Result := none,
            Patch := some (utf8
              ("[\x7b\"op\":\"add\",\"path\":\"/spec/tolerations\",\"value\":[\x7b" ++
                ",".intercalate
                  ((if cfg.toleration_key = "" then []
                    else ["\"key\":" ++ jsonString cfg.toleration_key])
                   ++ (if cfg.toleration_value = "" then []
                       else ["\"value\":" ++ jsonString cfg.toleration_value])
                   ++ (if cfg.toleration_effect = "" then []
                       else ["\"effect\":" ++ jsonString cfg.toleration_effect])) ++
                "\x7d]\x7d]")),
            PatchType := some "JSONPatch" } ∧
    (cfg.toleration_key ≠ "" → cfg.toleration_value ≠ "" → cfg.toleration_effect ≠ "" →
      needsNoEscape cfg.toleration_key = true → needsNoEscape cfg.toleration_value = true →
      needsNoEscape cfg.toleration_effect = true →
      getAdmissionDecision cfg lib admReq =
        .ok { UID := req.UID, Allowed := true, Result := none,
              Patch := some (utf8
                ("[\x7b\"op\":\"add\",\"path\":\"/spec/tolerations\",\"value\":[\x7b\"key\":\"" ++
                  cfg.toleration_key ++ "\",\"value\":\"" ++ cfg.toleration_value ++
                  "\",\"effect\":\"" ++ cfg.toleration_effect ++ "\"\x7d]\x7d]")),
              PatchType := some "JSONPatch" }) ∧
    (∀ existing : List Toleration,
      patchConfig { pod with Spec := { Tolerations := existing } } (elasticToleration cfg)
        = patchConfig pod (elasticToleration cfg)) := by
  obtain ⟨patch, hpatch, hdec⟩ := getAdmissionDecision_patch cfg lib admReq req pod hreq hpod hinj
  refine ⟨⟨patch, hpatch, hdec⟩, ?_, ?_, ?_⟩
  · have h := hpatch
    rw [jsonMarshal_add, jsonTolerationMembers_elastic] at h
    injection h with h
    rw [hdec, ← h]
    rfl
  · intro hk hv he hkp hvp hep
    have h := hpatch
    rw [jsonMarshal_elastic_plain cfg hk hv he hkp hvp hep] at h
    injection h with h
    rw [hdec, ← h]
    rfl
  · intro existing
    rw [patchConfig_eq, patchConfig_eq]

/-- Witness of C5 on the pod labelled `team: x` that already tolerates `gpu`,
with the toleration (dedicated, special, NoSchedule) configured: the text of
the patch and its 111 bytes. -/
theorem getAdmissionDecision_inject_witness :
    getAdmissionDecision exampleConfig exampleCodec labelledReview =
      .ok { UID := "1f6a3c9e-6393-11e8-b7cc-42010a800002", Allowed := true, Result := none,
            Patch := some (utf8
              ("[\x7b\"op\":\"add\",\"path\":\"/spec/tolerations\",\"value\":" ++
               "[\x7b\"key\":\"dedicated\",\"value\":\"special\",\"effect\":\"NoSchedule\"\x7d]\x7d]")),
            PatchType := some "JSONPatch" } ∧
    utf8 ("[\x7b\"op\":\"add\",\"path\":\"/spec/tolerations\",\"value\":" ++
          "[\x7b\"key\":\"dedicated\",\"value\":\"special\",\"effect\":\"NoSchedule\"\x7d]\x7d]") =
      [91, 123, 34, 111, 112, 34, 58, 34, 97, 100, 100, 34, 44, 34, 112, 97, 116, 104,
       34, 58, 34, 47, 115, 112, 101, 99, 47, 116, 111, 108, 101, 114, 97, 116, 105, 111,
       110, 115, 34, 44, 34, 118, 97, 108, 117, 101, 34, 58, 91, 123, 34, 107, 101, 121,
       34, 58, 34, 100, 101, 100, 105, 99, 97, 116, 101, 100, 34, 44, 34, 118, 97, 108,
       117, 101, 34, 58, 34, 115, 112, 101, 99, 105, 97, 108, 34, 44, 34, 101, 102, 102,
       101, 99, 116, 34, 58, 34, 78, 111, 83, 99, 104, 101, 100, 117, 108, 101, 34, 125,
       93, 125, 93] :=
  ⟨(getAdmissionDecision_inject exampleConfig exampleCodec labelledReview _ labelledPod rfl
      (by rfl) (by decide)).2.2.1 (by decide) (by decide) (by decide) (by decide) (by decide)
      (by decide),
   by decide⟩

/-- Claim C6. Skip path: when the raw resource body unmarshals to a pod that
is not eligible, the response is exactly: allowed, the UID of the request, no
patch, no patch type, no result. -/
theorem getAdmissionDecision_skip (cfg : Config) (lib : Codec)
    (admReq : AdmissionReview) (req : AdmissionRequest) (pod : Pod)
    (hreq : admReq.Request = some req)
    (hpod : lib.unmarshalPod req.Object.Raw = .ok pod)
    (hskip : shouldInject cfg pod.ObjectMeta = false) :
    getAdmissionDecision cfg lib admReq =
      .ok { UID := req.UID, Allowed := true, Result := none, Patch := none,
            PatchType := none } :=
  getAdmissionDecision_not_eligible cfg lib admReq req pod hreq hpod hskip

/-- Witness of C6 on the pod labelled `app: web`. -/
theorem getAdmissionDecision_skip_witness :
    getAdmissionDecision exampleConfig exampleCodec plainReview =
      .ok { UID := "c2d0e7a4-6393-11e8-b7cc-42010a800002", Allowed := true, Result := none,
            Patch := none, PatchType := none } :=
  getAdmissionDecision_skip exampleConfig exampleCodec plainReview _ plainPod rfl
    (by rfl) (by decide)

/-- Claim C7. A response returned by `getAdmissionDecision` that has a patch
is allowed and has the patch type `JSONPatch`, and one that is not allowed has
no patch; the same holds of every `admissionError err`, which never has a
patch. -/
theorem patch_implies_allowed (cfg : Config) (lib : Codec) (admReq : AdmissionReview)
    (resp : AdmissionResponse) (hresp : getAdmissionDecision cfg lib admReq = .ok resp) :
    (resp.Patch ≠ none → resp.Allowed = true ∧ resp.PatchType = some PatchTypeJSONPatch) ∧
    (resp.Allowed = false → resp.Patch = none) ∧
    (∀ err : String,
      ((admissionError err).Patch ≠ none →
        (admissionError err).Allowed = true ∧
        (admissionError err).PatchType = some PatchTypeJSONPatch) ∧
      ((admissionError err).Allowed = false → (admissionError err).Patch = none) ∧
      (admissionError err).Patch = none) := by
  have herr : ∀ err : String, (admissionError err).Patch = none := fun _ => rfl
  refine ⟨?_, ?_, fun err => ⟨fun h => absurd (herr err) h, fun _ => herr err, herr err⟩⟩
  all_goals
    cases hreq : admReq.Request with
    | none =>
      rw [getAdmissionDecision_no_request cfg lib admReq hreq] at hresp
      cases hresp
    | some req =>
      rcases getAdmissionDecision_shapes cfg lib admReq req hreq with
        ⟨err, h⟩ | h | ⟨patch, h⟩ <;>
      · rw [h] at hresp
        injection hresp with hresp
        subst hresp
        simp [admissionError]

/-- Witness of C7 on the inject path, where the patch is set. -/
theorem patch_implies_allowed_witness :
    ∃ resp, getAdmissionDecision exampleConfig exampleCodec labelledReview = .ok resp ∧
      resp.Patch ≠ none ∧ resp.Allowed = true ∧ resp.PatchType = some PatchTypeJSONPatch := by
  obtain ⟨patch, _, h⟩ := getAdmissionDecision_patch exampleConfig exampleCodec labelledReview
    _ labelledPod rfl (by rfl) (by decide)
  refine ⟨_, h, by simp, ?_⟩
  exact (patch_implies_allowed exampleConfig exampleCodec labelledReview _ h).1 (by simp)

/-- Claim C8. Failure responses. When the envelope does not decode, `handler`
writes the envelope whose response is `admissionError err`; when the raw
resource body does not unmarshal, `getAdmissionDecision` returns
`admissionError err`; and `admissionError err` is exactly the response whose
status message is the text of the error, with `Allowed` false, the UID empty
and neither patch nor patch type set. -/
theorem failure_response_is_admissionError (cfg : Config) (lib : Codec) :
    (∀ body err, lib.decodeReview body = .error err →
      handler cfg lib (.ok body) "application/json" =
        [HandlerEvent.decode body,
         HandlerEvent.write { Request := none, Response := some (admissionError err) }]) ∧
    (∀ admReq req err, admReq.Request = some req →
      lib.unmarshalPod req.Object.Raw = .error err →
      getAdmissionDecision cfg lib admReq = .ok (admissionError err)) ∧
    (∀ err, admissionError err =
      { UID := "", Allowed := false, Result := some { Message := err }, Patch := none,
        PatchType := none }) := by
  refine ⟨?_, ?_, fun _ => rfl⟩
  · intro body err hdec
    unfold handler
    simp [hdec]
  · intro admReq req err hreq hpod
    exact getAdmissionDecision_unmarshal_error cfg lib admReq req err hreq hpod

/-- Witness of C8: a body that is not JSON, and a review with an empty raw
resource body. -/
theorem failure_response_is_admissionError_witness :
    handler exampleConfig exampleCodec (.ok malformedBody) "application/json" =
      [HandlerEvent.decode malformedBody,
       HandlerEvent.write
         { Request := none,
           Response := some (admissionError "couldn't get version/kind; json parse error") }] ∧
    getAdmissionDecision exampleConfig exampleCodec deleteReview =
      .ok (admissionError "unexpected end of JSON input") :=
  ⟨(failure_response_is_admissionError exampleConfig exampleCodec).1 malformedBody _ (by rfl),
   (failure_response_is_admissionError exampleConfig exampleCodec).2.1 deleteReview _ _ rfl
     (by rfl)⟩

/-- A response is returned exactly for the reviews that have a request. -/
theorem getAdmissionDecision_returns_iff (cfg : Config) (lib : Codec)
    (admReq : AdmissionReview) :
    (∃ resp, getAdmissionDecision cfg lib admReq = .ok resp) ↔ admReq.Request ≠ none := by
  cases hreq : admReq.Request with
  | none =>
    rw [getAdmissionDecision_no_request cfg lib admReq hreq]
    simp
  | some req =>
    simp only [ne_eq, reduceCtorEq, not_false_eq_true, iff_true]
    rcases getAdmissionDecision_shapes cfg lib admReq req hreq with ⟨err, h⟩ | h | ⟨patch, h⟩
    · exact ⟨_, h⟩
    · exact ⟨_, h⟩
    · exact ⟨_, h⟩

/-- Claim C9, at the input where the program departs from it: the body of an
envelope without a `request` member decodes to a review whose `Request` is
nil; on it `getAdmissionDecision` faults on the dereference of the request
and returns no response, and `handler` ends in that fault after the decode,
with nothing written. -/
theorem getAdmissionDecision_nil_request_faults :
    exampleCodec.decodeReview emptyEnvelopeBody = .ok { Request := none } ∧
    getAdmissionDecision exampleConfig exampleCodec { Request := none }
      = .error Panic.nilPointerDereference ∧
    handler exampleConfig exampleCodec (.ok emptyEnvelopeBody) "application/json" =
      [HandlerEvent.decode emptyEnvelopeBody,
       HandlerEvent.fault Panic.nilPointerDereference] := by
  refine ⟨by rfl, by rfl, by rfl⟩

/-! ## The pointer escaper -/

/-- The scan for a one-character `old` replaces that character wherever it
stands. -/
theorem replaceScan_single (a : Char) (new s : List Char) :
    replaceScan [a] new 0 s = s.flatMap (fun c => if c = a then new else [c]) := by
  induction s with
  | nil => simp [replaceScan]
  | cons c cs ih =>
    by_cases h : c = a
    · subst h
      simp [replaceScan, List.isPrefixOf, ih]
    · have h2 : ¬ a = c := fun e => h e.symm
      simp [replaceScan, List.isPrefixOf, h, h2, ih]

/-- The first replacement of `escapeJSONPointer`, character by character. -/
theorem stringsReplace_tilde (s : String) :
    (stringsReplace s "~" "~0").data
      = s.data.flatMap (fun c => if c = '~' then ['~', '0'] else [c]) := by
  have h1 : ¬ ("~" : String) = "~0" := by decide
  have h2 : ¬ ("~" : String).data = [] := by decide
  unfold stringsReplace
  rw [if_neg h1, if_neg h2]
  exact replaceScan_single '~' _ _

/-- The replacement of `/` by `~1`, character by character. -/
theorem stringsReplace_slash (s : String) :
    (stringsReplace s "/" "~1").data
      = s.data.flatMap (fun c => if c = '/' then ['~', '1'] else [c]) := by
  have h1 : ¬ ("/" : String) = "~1" := by decide
  have h2 : ¬ ("/" : String).data = [] := by decide
  unfold stringsReplace
  rw [if_neg h1, if_neg h2]
  exact replaceScan_single '/' _ _

/-- The characters of `escapeJSONPointer s` are the substitutions of the
characters of `s`, in order. -/
theorem escapeJSONPointer_data (s : String) :
    (escapeJSONPointer s).data = s.data.flatMap escapeChar := by
  unfold escapeJSONPointer
  simp only [stringsReplace_slash, stringsReplace_tilde, List.flatMap_assoc]
  congr 1
  funext c
  unfold escapeChar
  by_cases h1 : c = '~'
  · subst h1; simp
  · by_cases h2 : c = '/'
    · subst h2; simp
    · simp [h1, h2]

/-- The first replacement of the decoder undoes the substitution of `/`. -/
theorem replaceScan_unescape_slash (s : List Char) :
    replaceScan ['~', '1'] ['/'] 0 (s.flatMap escapeChar)
      = s.flatMap (fun c => if c = '~' then ['~', '0'] else [c]) := by
  induction s with
  | nil => simp [replaceScan]
  | cons c cs ih =>
    rw [List.flatMap_cons, List.flatMap_cons]
    by_cases h1 : c = '~'
    · subst h1
      simp [escapeChar, replaceScan, List.isPrefixOf]
      exact ih
    · by_cases h2 : c = '/'
      · subst h2
        simp [escapeChar, replaceScan, List.isPrefixOf]
        exact ih
      · have h3 : ¬ '~' = c := fun e => h1 e.symm
        simp [escapeChar, replaceScan, List.isPrefixOf, h1, h2, h3]
        exact ih

/-- The second replacement of the decoder undoes the substitution of `~`. -/
theorem replaceScan_unescape_tilde (s : List Char) :
    replaceScan ['~', '0'] ['~'] 0
        (s.flatMap (fun c => if c = '~' then ['~', '0'] else [c]))
      = s := by
  induction s with
  | nil => simp [replaceScan]
  | cons c cs ih =>
    rw [List.flatMap_cons]
    by_cases h1 : c = '~'
    · subst h1
      simp [replaceScan, List.isPrefixOf]
      exact ih
    · have h3 : ¬ '~' = c := fun e => h1 e.symm
      simp [replaceScan, List.isPrefixOf, h1, h3]
      exact ih

/-- The decoder is a left inverse of the escaper. -/
theorem unescape_escape (s : String) :
    unescapeJSONPointer (escapeJSONPointer s) = s := by
  have h1 : ¬ ("~1" : String) = "/" := by decide
  have h2 : ¬ ("~1" : String).data = [] := by decide
  have h3 : ¬ ("~0" : String) = "~" := by decide
  have h4 : ¬ ("~0" : String).data = [] := by decide
  unfold unescapeJSONPointer
  have hA : (stringsReplace (escapeJSONPointer s) "~1" "/").data
      = s.data.flatMap (fun c => if c = '~' then ['~', '0'] else [c]) := by
    unfold stringsReplace
    rw [if_neg h1, if_neg h2, escapeJSONPointer_data]
    exact replaceScan_unescape_slash s.data
  unfold stringsReplace
  rw [if_neg h3, if_neg h4]
  apply String.ext
  show replaceScan ['~', '0'] ['~'] 0 (stringsReplace (escapeJSONPointer s) "~1" "/").data = s.data
  rw [hA]
  exact replaceScan_unescape_tilde s.data

/-- The number of characters of the escaped text. -/
theorem escapeChar_flatMap_length (s : List Char) :
    (s.flatMap escapeChar).length
      = s.length + s.countP (fun c => decide (c = '~' ∨ c = '/')) := by
  induction s with
  | nil => rfl
  | cons c cs ih =>
    rw [List.flatMap_cons, List.length_append, ih, List.length_cons, List.countP_cons]
    unfold escapeChar
    by_cases h1 : c = '~'
    · simp [h1]; omega
    · by_cases h2 : c = '/'
      · simp [h2]; omega
      · simp [h1, h2]; omega

/-- The number of bytes of the escaped text. -/
theorem escapeChar_flatMap_utf8_length (s : List Char) :
    ((s.flatMap escapeChar).flatMap String.utf8EncodeChar).length
      = (s.flatMap String.utf8EncodeChar).length
        + s.countP (fun c => decide (c = '~' ∨ c = '/')) := by
  induction s with
  | nil => rfl
  | cons c cs ih =>
    rw [List.flatMap_cons, List.flatMap_append, List.length_append, ih, List.flatMap_cons,
      List.length_append, List.countP_cons]
    have ht : (String.utf8EncodeChar '~').length = 1 := by decide
    have hs : (String.utf8EncodeChar '/').length = 1 := by decide
    have h0 : (String.utf8EncodeChar '0').length = 1 := by decide
    have h1 : (String.utf8EncodeChar '1').length = 1 := by decide
    unfold escapeChar
    by_cases hc1 : c = '~'
    · subst hc1
      simp [ht, h0]; omega
    · by_cases hc2 : c = '/'
      · subst hc2
        simp [ht, hs, h1]; omega
      · simp [hc1, hc2]; omega

/-- Claim C12. Round trip: with the decoder that replaces every `~1` by `/`
and then every `~0` by `~`, decoding `escapeJSONPointer s` gives back `s`, for
every string `s`; hence `escapeJSONPointer` is injective. -/
theorem escapeJSONPointer_round_trip :
    (∀ s : String, unescapeJSONPointer (escapeJSONPointer s) = s) ∧
    Function.Injective escapeJSONPointer :=
  ⟨unescape_escape, Function.LeftInverse.injective unescape_escape⟩

/-- Claim C13. For every string `s`, `escapeJSONPointer s` is the one-pass
substitution that maps each `~` to `~0`, each `/` to `~1` and every other
character to itself; its length, counted in characters and counted in bytes,
is the length of `s` plus the number of `~` and `/` in `s`. The function is
total: it has no failure mode. -/
theorem escapeJSONPointer_charwise (s : String) :
    escapeJSONPointer s = escapeCharwise s ∧
    (escapeJSONPointer s).length
      = s.length + s.data.countP (fun c => decide (c = '~' ∨ c = '/')) ∧
    (utf8 (escapeJSONPointer s)).length
      = (utf8 s).length + s.data.countP (fun c => decide (c = '~' ∨ c = '/')) := by
  refine ⟨?_, ?_, ?_⟩
  · apply String.ext
    rw [escapeJSONPointer_data]
    rfl
  · show (escapeJSONPointer s).data.length = s.data.length + _
    rw [escapeJSONPointer_data, escapeChar_flatMap_length]
  · unfold utf8
    rw [escapeJSONPointer_data, escapeChar_flatMap_utf8_length]

/-- The escaped text has no `/`. -/
theorem escapeChar_flatMap_no_slash (s : List Char) : '/' ∉ s.flatMap escapeChar := by
  intro h
  rw [List.mem_flatMap] at h
  obtain ⟨c, _, hc⟩ := h
  unfold escapeChar at hc
  by_cases h1 : c = '~'
  · rw [if_pos h1] at hc
    revert hc
    decide
  · by_cases h2 : c = '/'
    · rw [if_neg h1, if_pos h2] at hc
      revert hc
      decide
    · rw [if_neg h1, if_neg h2, List.mem_singleton] at hc
      exact h2 hc.symm

/-- Wherever the escaped text is cut in front of a `~`, what follows the `~`
starts with `0` or with `1`. -/
theorem escapeChar_flatMap_tilde (s pre post : List Char)
    (h : s.flatMap escapeChar = pre ++ '~' :: post) :
    ∃ rest, post = '0' :: rest ∨ post = '1' :: rest := by
  induction s generalizing pre with
  | nil =>
    cases pre <;> simp at h
  | cons c cs ih =>
    rw [List.flatMap_cons] at h
    unfold escapeChar at h
    by_cases h1 : c = '~'
    · rw [if_pos h1] at h
      cases pre with
      | nil =>
        simp only [List.nil_append, List.cons_append, List.cons.injEq, true_and] at h
        exact ⟨_, Or.inl h.symm⟩
      | cons x pre1 =>
        cases pre1 with
        | nil =>
          simp only [List.nil_append, List.cons_append, List.cons.injEq] at h
          exact absurd h.2.1 (by decide)
        | cons y pre2 =>
          simp only [List.nil_append, List.cons_append, List.cons.injEq] at h
          exact ih pre2 h.2.2
    · by_cases h2 : c = '/'
      · rw [if_neg h1, if_pos h2] at h
        cases pre with
        | nil =>
          simp only [List.nil_append, List.cons_append, List.cons.injEq, true_and] at h
          exact ⟨_, Or.inr h.symm⟩
        | cons x pre1 =>
          cases pre1 with
          | nil =>
            simp only [List.nil_append, List.cons_append, List.cons.injEq] at h
            exact absurd h.2.1 (by decide)
          | cons y pre2 =>
            simp only [List.nil_append, List.cons_append, List.cons.injEq] at h
            exact ih pre2 h.2.2
      · rw [if_neg h1, if_neg h2] at h
        cases pre with
        | nil =>
          simp only [List.nil_append, List.cons_append, List.cons.injEq] at h
          exact absurd h.1 h1
        | cons x pre1 =>
          simp only [List.nil_append, List.cons_append, List.cons.injEq] at h
          exact ih pre1 h.2

/-- Claim C16. For every string `s`, `escapeJSONPointer s` is a pointer-safe
path segment: no character of it is `/`, and every `~` in it (at any index
`i`) is immediately followed (at index `i + 1`) by `0` or by `1`. -/
theorem escapeJSONPointer_pointer_safe (s : String) :
    '/' ∉ (escapeJSONPointer s).data ∧
    ∀ i : Nat, (escapeJSONPointer s).data[i]? = some '~' →
      (escapeJSONPointer s).data[i + 1]? = some '0' ∨
      (escapeJSONPointer s).data[i + 1]? = some '1' := by
  rw [escapeJSONPointer_data]
  refine ⟨escapeChar_flatMap_no_slash s.data, ?_⟩
  intro i hi
  obtain ⟨hlt, hget⟩ := List.getElem?_eq_some.mp hi
  have hsplit : s.data.flatMap escapeChar
      = (s.data.flatMap escapeChar).take i
          ++ '~' :: (s.data.flatMap escapeChar).drop (i + 1) := by
    rw [← hget, ← List.drop_eq_getElem_cons hlt, List.take_append_drop]
  obtain ⟨rest, hrest⟩ := escapeChar_flatMap_tilde s.data _ _ hsplit
  have hnext : (s.data.flatMap escapeChar)[i + 1]?
      = ((s.data.flatMap escapeChar).drop (i + 1))[0]? := by
    rw [List.getElem?_drop]
  rw [hnext]
  rcases hrest with h | h
  · left; rw [h, List.getElem?_cons_zero]
  · right; rw [h, List.getElem?_cons_zero]

/-- Witness of C16 on `a/b~c`, escaped to `a~1b~0c`: the `~` at index 1 is
followed by `1`. -/
theorem escapeJSONPointer_pointer_safe_witness :
    (escapeJSONPointer "a/b~c").data[1 + 1]? = some '0' ∨
    (escapeJSONPointer "a/b~c").data[1 + 1]? = some '1' :=
  (escapeJSONPointer_pointer_safe "a/b~c").2 1 (by decide)

/-- The characters of the slash-first variant: `/` becomes `~01`, `~` becomes
`~0`, every other character stays. -/
theorem escapeSlashFirst_data (s : String) :
    (escapeSlashFirst s).data
      = s.data.flatMap (fun c =>
          if c = '/' then ['~', '0', '1'] else if c = '~' then ['~', '0'] else [c]) := by
  unfold escapeSlashFirst
  simp only [stringsReplace_slash, stringsReplace_tilde, List.flatMap_assoc]
  congr 1
  funext c
  by_cases h1 : c = '/'
  · subst h1; simp
  · by_cases h2 : c = '~'
    · subst h2; simp
    · simp [h1, h2]

/-- The slash-first variant is longer than the escaper by one character for
every `/`. -/
theorem escapeSlashFirst_length (s : List Char) :
    (s.flatMap (fun c =>
        if c = '/' then ['~', '0', '1'] else if c = '~' then ['~', '0'] else [c])).length
      = (s.flatMap escapeChar).length + s.count '/' := by
  induction s with
  | nil => rfl
  | cons c cs ih =>
    rw [List.flatMap_cons, List.length_append, ih, List.flatMap_cons, List.length_append,
      List.count_cons]
    unfold escapeChar
    by_cases h1 : c = '/'
    · subst h1; simp; omega
    · by_cases h2 : c = '~'
      · subst h2; simp; omega
      · simp [h1, h2]; omega

/-- Without a `/` the two orders of replacement give the same characters. -/
theorem escapeSlashFirst_eq_of_no_slash (s : List Char) (h : '/' ∉ s) :
    s.flatMap (fun c =>
        if c = '/' then ['~', '0', '1'] else if c = '~' then ['~', '0'] else [c])
      = s.flatMap escapeChar := by
  induction s with
  | nil => rfl
  | cons c cs ih =>
    rw [List.mem_cons, not_or] at h
    have hc : ¬ c = '/' := fun e => h.1 e.symm
    rw [List.flatMap_cons, List.flatMap_cons, ih h.2]
    unfold escapeChar
    by_cases h2 : c = '~'
    · subst h2; simp
    · simp [hc, h2]

/-- Claim C17. The order of the two replacements matters. The variant that
replaces `/` first turns `/` into `~01`; it differs from `escapeJSONPointer`
on every string that contains a `/` and agrees with it on every string that
does not; it maps both `/` and `~1` to `~01`, so it is not injective. -/
theorem escapeSlashFirst_differs :
    (∀ s : String, (escapeSlashFirst s).data
      = s.data.flatMap (fun c =>
          if c = '/' then ['~', '0', '1'] else if c = '~' then ['~', '0'] else [c])) ∧
    (∀ s : String, '/' ∈ s.data → escapeSlashFirst s ≠ escapeJSONPointer s) ∧
    (∀ s : String, '/' ∉ s.data → escapeSlashFirst s = escapeJSONPointer s) ∧
    escapeSlashFirst "/" = "~01" ∧ escapeSlashFirst "~1" = "~01" ∧
    escapeJSONPointer "/" = "~1" ∧
    ¬ Function.Injective escapeSlashFirst := by
  refine ⟨escapeSlashFirst_data, ?_, ?_, by decide, by decide, by decide, ?_⟩
  · intro s hs heq
    have hlen := congrArg (fun t : String => t.data.length) heq
    simp only [escapeSlashFirst_data, escapeJSONPointer_data, escapeSlashFirst_length] at hlen
    have hpos : 0 < s.data.count '/' := List.count_pos_iff.mpr hs
    omega
  · intro s hs
    apply String.ext
    rw [escapeSlashFirst_data, escapeJSONPointer_data]
    exact escapeSlashFirst_eq_of_no_slash s.data hs
  · intro hinj
    have h : escapeSlashFirst "/" = escapeSlashFirst "~1" := by decide
    exact absurd (hinj h) (by decide)

/-- Witness of C17: on `a/b` the two orders differ, on `a~b` they agree. -/
theorem escapeSlashFirst_differs_witness :
    escapeSlashFirst "a/b" ≠ escapeJSONPointer "a/b" ∧
    escapeSlashFirst "a~b" = escapeJSONPointer "a~b" :=
  ⟨escapeSlashFirst_differs.2.1 "a/b" (by decide),
   escapeSlashFirst_differs.2.2.1 "a~b" (by decide)⟩

/-! ## Claims on the builder, the fixed toleration, the handler and the result -/

/-- Under the append reading, applying the builder's output appends the
tolerations to add. -/
theorem applyAppend_addTolerations (tolerations current toAdd : List Toleration) :
    applyAppend tolerations (addTolerations current toAdd) = tolerations ++ toAdd := by
  rw [addTolerations_eq_map]
  unfold applyAppend
  induction toAdd generalizing tolerations with
  | nil => simp
  | cons t rest ih =>
    rw [List.map_cons, List.foldl_cons, ih]
    simp

/-- Claim C11. The patch builder does not deduplicate: its output is the same
for every two sequences of current tolerations; a toleration of `toAdd` that
is already among the current ones still gets its `add` operation; and, with
an `add` read as an append, building and applying the patch on a resource and
then again on the patched resource leaves the tolerations to add in it
twice. -/
theorem addTolerations_ignores_current (toAdd : List Toleration) :
    (∀ current1 current2 : List Toleration,
      addTolerations current1 toAdd = addTolerations current2 toAdd) ∧
    (∀ (current : List Toleration) (t : Toleration), t ∈ current → t ∈ toAdd →
      ({ Operation := "add", Path := "/spec/tolerations", Value := [t] } : JsonPatchOperation)
        ∈ addTolerations current toAdd) ∧
    (∀ current : List Toleration,
      applyAppend (applyAppend current (addTolerations current toAdd))
          (addTolerations (applyAppend current (addTolerations current toAdd)) toAdd)
        = current ++ toAdd ++ toAdd) := by
  refine ⟨?_, ?_, ?_⟩
  · intro current1 current2
    rw [addTolerations_eq_map, addTolerations_eq_map]
  · intro current t _ ht
    rw [addTolerations_eq_map]
    exact List.mem_map.mpr ⟨t, ht, rfl⟩
  · intro current
    rw [applyAppend_addTolerations, applyAppend_addTolerations]

/-- Witness of C11: the pod already tolerates (dedicated, special,
NoSchedule) and the operation that adds it is emitted all the same. -/
theorem addTolerations_ignores_current_witness :
    ({ Operation := "add", Path := "/spec/tolerations",
       Value := [{ Key := "dedicated", Value := "special", Effect := "NoSchedule" }] } :
        JsonPatchOperation)
      ∈ addTolerations [{ Key := "dedicated", Value := "special", Effect := "NoSchedule" }]
          (elasticToleration exampleConfig) :=
  (addTolerations_ignores_current (elasticToleration exampleConfig)).2.1
    [{ Key := "dedicated", Value := "special", Effect := "NoSchedule" }]
    { Key := "dedicated", Value := "special", Effect := "NoSchedule" }
    (by decide) (by decide)

/-- Claim C14. The injected toleration is fixed: two decoded reviews that
both take the inject path under the same configuration get responses with the
same patch bytes, which are set, and the same patch type, whatever their
pods, labels, existing tolerations and UIDs are. -/
theorem inject_patch_fixed (cfg : Config) (lib : Codec)
    (admReq1 admReq2 : AdmissionReview) (req1 req2 : AdmissionRequest) (pod1 pod2 : Pod)
    (hreq1 : admReq1.Request = some req1) (hreq2 : admReq2.Request = some req2)
    (hpod1 : lib.unmarshalPod req1.Object.Raw = .ok pod1)
    (hpod2 : lib.unmarshalPod req2.Object.Raw = .ok pod2)
    (hinj1 : shouldInject cfg pod1.ObjectMeta = true)
    (hinj2 : shouldInject cfg pod2.ObjectMeta = true) :
    ∃ resp1 resp2,
      getAdmissionDecision cfg lib admReq1 = .ok resp1 ∧
      getAdmissionDecision cfg lib admReq2 = .ok resp2 ∧
      resp1.Patch = resp2.Patch ∧ resp1.Patch ≠ none ∧
      resp1.PatchType = resp2.PatchType := by
  obtain ⟨patch1, hm1, h1⟩ := getAdmissionDecision_patch cfg lib admReq1 req1 pod1 hreq1 hpod1 hinj1
  obtain ⟨patch2, hm2, h2⟩ := getAdmissionDecision_patch cfg lib admReq2 req2 pod2 hreq2 hpod2 hinj2
  rw [hm1] at hm2
  injection hm2 with hm2
  subst hm2
  exact ⟨_, _, h1, h2, rfl, by simp, rfl⟩

/-- Witness of C14 on two reviews with different UIDs, names and namespaces. -/
theorem inject_patch_fixed_witness :
    ∃ resp1 resp2,
      getAdmissionDecision exampleConfig exampleCodec labelledReview = .ok resp1 ∧
      getAdmissionDecision exampleConfig exampleCodec secondLabelledReview = .ok resp2 ∧
      resp1.Patch = resp2.Patch ∧ resp1.Patch ≠ none ∧
      resp1.PatchType = resp2.PatchType :=
  inject_patch_fixed exampleConfig exampleCodec labelledReview secondLabelledReview _ _
    labelledPod labelledPod rfl rfl (by rfl) (by rfl) (by decide) (by decide)

/-- Claim C18. For every response returned by `getAdmissionDecision`,
`Allowed` is true if and only if no `Result` is set: the response is an allow
without a status message or a status message without an allow. -/
theorem allowed_iff_no_result (cfg : Config) (lib : Codec) (admReq : AdmissionReview)
    (resp : AdmissionResponse) (hresp : getAdmissionDecision cfg lib admReq = .ok resp) :
    resp.Allowed = true ↔ resp.Result = none := by
  cases hreq : admReq.Request with
  | none =>
    rw [getAdmissionDecision_no_request cfg lib admReq hreq] at hresp
    cases hresp
  | some req =>
    rcases getAdmissionDecision_shapes cfg lib admReq req hreq with
      ⟨err, h⟩ | h | ⟨patch, h⟩ <;>
    · rw [h] at hresp
      injection hresp with hresp
      subst hresp
      simp [admissionError]

/-- Witness of C18 on a failed decision: a status message and no allow. -/
theorem allowed_iff_no_result_witness :
    (admissionError "unexpected end of JSON input").Allowed = true ↔
      (admissionError "unexpected end of JSON input").Result = none :=
  allowed_iff_no_result exampleConfig exampleCodec deleteReview _
    (getAdmissionDecision_unmarshal_error _ _ _ _ _ rfl rfl)

/-- Claim C15 as stated fails: with the content type `application/json`, a
request whose body cannot be read is not processed; the handler returns
before it looks at the header, with no decode and nothing written. -/
theorem handler_unread_body_not_processed :
    handler exampleConfig exampleCodec (.error "unexpected EOF") "application/json" = [] := by
  rfl

/-- Claim C15, amended. A request whose body cannot be read is not processed,
whatever its content type. A request whose body was read is decoded if and
only if its content type is exactly `application/json`: with any other
content type nothing is decoded and nothing is written; with
`application/json` the body is decoded, and a response envelope is written
when the body does not decode (the envelope of `admissionError err`) and when
it decodes to a review that has a request (the envelope of the decision). -/
theorem handler_content_type (cfg : Config) (lib : Codec) (body : Except String Bytes)
    (contentType : String) :
    (contentType ≠ "application/json" → handler cfg lib body contentType = []) ∧
    (∀ err, body = .error err → handler cfg lib body contentType = []) ∧
    (∀ bytes, HandlerEvent.decode bytes ∈ handler cfg lib body contentType ↔
      body = .ok bytes ∧ contentType = "application/json") ∧
    (∀ bytes err, body = .ok bytes → contentType = "application/json" →
      lib.decodeReview bytes = .error err →
      handler cfg lib body contentType =
        [HandlerEvent.decode bytes,
         HandlerEvent.write { Request := none, Response := some (admissionError err) }]) ∧
    (∀ bytes admReq req, body = .ok bytes → contentType = "application/json" →
      lib.decodeReview bytes = .ok admReq → admReq.Request = some req →
      ∃ resp, getAdmissionDecision cfg lib admReq = .ok resp ∧
        handler cfg lib body contentType =
          [HandlerEvent.decode bytes,
           HandlerEvent.write { Request := none, Response := some resp }]) := by
  refine ⟨?_, ?_, ?_, ?_, ?_⟩
  · intro hct
    unfold handler
    cases body with
    | error e => rfl
    | ok b => simp [hct]
  · rintro err rfl
    rfl
  · intro bytes
    unfold handler
    cases body with
    | error e => simp
    | ok b =>
      by_cases hct : contentType = "application/json"
      · cases hdec : lib.decodeReview b with
        | error err => simp [hct, hdec, eq_comm]
        | ok admReq =>
          cases hgad : getAdmissionDecision cfg lib admReq with
          | error p => simp [hct, hdec, hgad, eq_comm]
          | ok resp => simp [hct, hdec, hgad, eq_comm]
      · simp [hct]
  · rintro bytes err rfl rfl hdec
    unfold handler
    simp [hdec]
  · rintro bytes admReq req rfl rfl hdec hreq
    obtain ⟨resp, hresp⟩ := (getAdmissionDecision_returns_iff cfg lib admReq).mpr
      (by rw [hreq]; simp)
    refine ⟨resp, hresp, ?_⟩
    unfold handler
    simp [hdec, hresp]

/-- Witness of the amended C15: the absent header and `application/json` with
a parameter are not processed; a body that is not JSON, sent as
`application/json`, is decoded and answered. -/
theorem handler_content_type_witness :
    handler exampleConfig exampleCodec (.ok malformedBody) "" = [] ∧
    handler exampleConfig exampleCodec (.ok malformedBody) "application/json; charset=utf-8"
      = [] ∧
    handler exampleConfig exampleCodec (.ok malformedBody) "application/json" =
      [HandlerEvent.decode malformedBody,
       HandlerEvent.write
         { Request := none,
           Response := some (admissionError "couldn't get version/kind; json parse error") }] :=
  ⟨(handler_content_type exampleConfig exampleCodec (.ok malformedBody) "").1 (by decide),
   (handler_content_type exampleConfig exampleCodec (.ok malformedBody)
      "application/json; charset=utf-8").1 (by decide),
   (handler_content_type exampleConfig exampleCodec (.ok malformedBody)
      "application/json").2.2.2.1 malformedBody _ rfl rfl (by rfl)⟩

end TolerationWebhook
